import Mathlib

/-!
# Verification of the refactorix inline-variable / extract-variable core

Shallow embedding of the repository's refactoring engine:

* `src/unnamed/part_001` — the inline-variable engine (`inlineVariable`,
  `findInlinableCode`, `InlinableIdentifier`, `InlinableDeclarations`,
  `isShadowIn`);
* `src/src/ast/scope.ts` — scope utilities (`findScopePath`, `isShadowIn`);
* `src/unnamed/part_002` — `RefactoringActionProvider`;
* the extract-variable destructure prompt (implementation not in the
  provided sources; modelled from the spec and pinned by the test file
  `extract-variable.extractable-objects.test.ts`).

The Babel syntax tree is embedded as the inductive `Node`; every node
carries a numeric identity `nid` (modelling JavaScript reference equality
`===` between node objects) and an optional source range `loc`.
Structural equality modulo `nid`/`loc` models babel `areEquivalent`.
-/

namespace Refactorix

/-- A source position `(line, column)`, 0-indexed, as in the editor's
`Position` class (modelled from the spec: totally ordered pairs). -/
structure Pos where
  line : Nat
  column : Nat
deriving DecidableEq, Repr

/-- Lexicographic order on positions. Modelled from the spec: positions are
totally ordered. -/
def Pos.isBeforeOrEqual (a b : Pos) : Bool :=
  a.line < b.line || (a.line == b.line && a.column ≤ b.column)

/-- A source range, babel's `SourceLocation` (`start`/`end`; `end` is a Lean
keyword so it is called `stop` here). -/
structure Loc where
  start : Pos
  stop : Pos
deriving DecidableEq, Repr

/-- A selection: a pair of positions with `start ≤ end`. The order invariant
is not needed by any theorem below, so it is not carried in the type. -/
structure Selection where
  start : Pos
  stop : Pos
deriving DecidableEq, Repr

/-- `Selection.fromAST(loc)`: the selection covering a node's range. -/
def Selection.fromAST (loc : Loc) : Selection :=
  ⟨loc.start, loc.stop⟩

/-- Modelled from the spec (§4.1, the editor's `Selection` class is not in
the provided sources): `isInsideNode` is true iff the node's range fully
contains the selection; this is the range-level version. -/
def Selection.isInsideLoc (sel : Selection) (loc : Loc) : Bool :=
  loc.start.isBeforeOrEqual sel.start && sel.stop.isBeforeOrEqual loc.stop

/-- Modelled from the spec: widen the selection backwards so that it starts
where `other` starts (used to extend an initializer's range back to the
declared identifier, and to merge with a previous declarator). -/
def Selection.extendStartTo (sel other : Selection) : Selection :=
  ⟨other.start, sel.stop⟩

/-- Modelled from the spec: widen the selection forwards so that it ends
where `other` ends (used to merge with a next declarator). -/
def Selection.extendEndTo (sel other : Selection) : Selection :=
  ⟨sel.start, other.stop⟩

/-- Modelled from the spec: align the selection's start with the start of
its line. -/
def Selection.extendToStartOfLine (sel : Selection) : Selection :=
  ⟨⟨sel.start.line, 0⟩, sel.stop⟩

/-- Modelled from the spec: extend the selection's end to the start of the
next line. -/
def Selection.extendToStartOfNextLine (sel : Selection) : Selection :=
  ⟨sel.start, ⟨sel.stop.line + 1, 0⟩⟩

/-- Node metadata: `nid` models the JavaScript object identity of the node
(reference equality `===` is `nid` equality on trees whose `nid`s are
distinct), `loc` is the optional source range (babel leaves it absent on
some synthesized nodes, cf. the named-export patch in `findInlinableCode`). -/
structure Meta where
  nid : Nat
  loc : Option Loc
deriving DecidableEq, Repr

/-- The embedded babel syntax tree. Only the node kinds used by the two
engines and by `findScopePath` are modelled; children appear in babel
`VISITOR_KEYS` order. -/
inductive Node where
  | ident (m : Meta) (name : String)
  | lit (m : Meta) (text : String)
  | varDecl (m : Meta) (declarations : List Node)
  | dtor (m : Meta) (id : Node) (init : Option Node)
  | assign (m : Meta) (left right : Node)
  | unary (m : Meta) (argument : Node)
  | objProp (m : Meta) (key value : Node) (shorthand computed : Bool)
  | objExpr (m : Meta) (properties : List Node)
  | member (m : Meta) (object property : Node) (computed : Bool)
  | funcDecl (m : Meta) (fid : Node) (params : List Node) (body : Node)
  | arrowFn (m : Meta) (params : List Node) (body : Node)
  | block (m : Meta) (body : List Node)
  | exprStmt (m : Meta) (expression : Node)
  | program (m : Meta) (body : List Node)
  | exportNamed (m : Meta) (declaration : Option Node)
  | exportDefault (m : Meta) (declaration : Node)
  | returnStmt (m : Meta) (argument : Option Node)
  | classDecl (m : Meta) (cid : Node)
  | ifStmt (m : Meta) (test consequent : Node) (alternate : Option Node)
  | whileStmt (m : Meta) (test body : Node)
  | switchStmt (m : Meta) (discriminant : Node)
  | forStmt (m : Meta) (body : Node)
  | throwStmt (m : Meta) (argument : Node)

namespace Node

/-- The metadata of a node. -/
def meta : Node → Meta
  | ident m _ => m
  | lit m _ => m
  | varDecl m _ => m
  | dtor m _ _ => m
  | assign m _ _ => m
  | unary m _ => m
  | objProp m _ _ _ _ => m
  | objExpr m _ => m
  | member m _ _ _ => m
  | funcDecl m _ _ _ => m
  | arrowFn m _ _ => m
  | block m _ => m
  | exprStmt m _ => m
  | program m _ => m
  | exportNamed m _ => m
  | exportDefault m _ => m
  | returnStmt m _ => m
  | classDecl m _ => m
  | ifStmt m _ _ _ => m
  | whileStmt m _ _ => m
  | switchStmt m _ => m
  | forStmt m _ => m
  | throwStmt m _ => m

/-- The node's object identity (models the JavaScript reference). -/
def nid (n : Node) : Nat := n.meta.nid

/-- The node's source range, when it has one. -/
def loc (n : Node) : Option Loc := n.meta.loc

/-- Replace the node's source range, keeping everything else (models the
in-place `node.loc = parent.loc` patch of `findInlinableCode`). -/
def withLoc : Node → Option Loc → Node
  | ident m s, l => ident ⟨m.nid, l⟩ s
  | lit m s, l => lit ⟨m.nid, l⟩ s
  | varDecl m ds, l => varDecl ⟨m.nid, l⟩ ds
  | dtor m i e, l => dtor ⟨m.nid, l⟩ i e
  | assign m a b, l => assign ⟨m.nid, l⟩ a b
  | unary m a, l => unary ⟨m.nid, l⟩ a
  | objProp m k v s c, l => objProp ⟨m.nid, l⟩ k v s c
  | objExpr m ps, l => objExpr ⟨m.nid, l⟩ ps
  | member m o p c, l => member ⟨m.nid, l⟩ o p c
  | funcDecl m f ps b, l => funcDecl ⟨m.nid, l⟩ f ps b
  | arrowFn m ps b, l => arrowFn ⟨m.nid, l⟩ ps b
  | block m b, l => block ⟨m.nid, l⟩ b
  | exprStmt m e, l => exprStmt ⟨m.nid, l⟩ e
  | program m b, l => program ⟨m.nid, l⟩ b
  | exportNamed m d, l => exportNamed ⟨m.nid, l⟩ d
  | exportDefault m d, l => exportDefault ⟨m.nid, l⟩ d
  | returnStmt m a, l => returnStmt ⟨m.nid, l⟩ a
  | classDecl m c, l => classDecl ⟨m.nid, l⟩ c
  | ifStmt m t c a, l => ifStmt ⟨m.nid, l⟩ t c a
  | whileStmt m t b, l => whileStmt ⟨m.nid, l⟩ t b
  | switchStmt m d, l => switchStmt ⟨m.nid, l⟩ d
  | forStmt m b, l => forStmt ⟨m.nid, l⟩ b
  | throwStmt m a, l => throwStmt ⟨m.nid, l⟩ a

end Node

/-- Babel type guard `isVariableDeclaration`. -/
def isVariableDeclaration : Node → Bool
  | .varDecl _ _ => true
  | _ => false

/-- Babel type guard `isVariableDeclarator`. -/
def isVariableDeclarator : Node → Bool
  | .dtor _ _ _ => true
  | _ => false

/-- Babel type guard `isIdentifier`. -/
def isIdentifier : Node → Bool
  | .ident _ _ => true
  | _ => false

/-- Babel type guard `isAssignmentExpression`. -/
def isAssignmentExpression : Node → Bool
  | .assign _ _ _ => true
  | _ => false

/-- Babel type guard `isUnaryExpression`. -/
def isUnaryExpression : Node → Bool
  | .unary _ _ => true
  | _ => false

/-- Babel type guard `isObjectProperty`. -/
def isObjectProperty : Node → Bool
  | .objProp _ _ _ _ _ => true
  | _ => false

/-- Babel type guard `isMemberExpression`. -/
def isMemberExpression : Node → Bool
  | .member _ _ _ _ => true
  | _ => false

/-- Babel type guard `isFunctionDeclaration`. -/
def isFunctionDeclaration : Node → Bool
  | .funcDecl _ _ _ _ => true
  | _ => false

/-- Babel type guard `isBlockStatement`. -/
def isBlockStatement : Node → Bool
  | .block _ _ => true
  | _ => false

/-- Babel type guard `isExportNamedDeclaration`. -/
def isExportNamedDeclaration : Node → Bool
  | .exportNamed _ _ => true
  | _ => false

/-- Babel type guard `isExportDeclaration` (named, default or `export *`;
only named and default exports are modelled). -/
def isExportDeclaration : Node → Bool
  | .exportNamed _ _ => true
  | .exportDefault _ _ => true
  | _ => false

/-- Babel type guard `isExpressionStatement`. -/
def isExpressionStatement : Node → Bool
  | .exprStmt _ _ => true
  | _ => false

/-- Babel type guard `isReturnStatement`. -/
def isReturnStatement : Node → Bool
  | .returnStmt _ _ => true
  | _ => false

/-- Babel type guard `isClassDeclaration`. -/
def isClassDeclaration : Node → Bool
  | .classDecl _ _ => true
  | _ => false

/-- Babel type guard `isIfStatement`. -/
def isIfStatement : Node → Bool
  | .ifStmt _ _ _ _ => true
  | _ => false

/-- Babel type guard `isWhileStatement`. -/
def isWhileStatement : Node → Bool
  | .whileStmt _ _ _ => true
  | _ => false

/-- Babel type guard `isSwitchStatement`. -/
def isSwitchStatement : Node → Bool
  | .switchStmt _ _ => true
  | _ => false

/-- Babel type guard `isForStatement`. -/
def isForStatement : Node → Bool
  | .forStmt _ _ => true
  | _ => false

/-- Babel type guard `isThrowStatement`. -/
def isThrowStatement : Node → Bool
  | .throwStmt _ _ => true
  | _ => false

/-- `ast.isSelectableNode(node)`: the node has a source range. -/
def isSelectableNode (n : Node) : Bool := n.loc.isSome

/-- `ast.isSelectableIdentifier(node)`: an identifier with a source range. -/
def isSelectableIdentifier (n : Node) : Bool :=
  isIdentifier n && isSelectableNode n

/-- `ast.isSelectableVariableDeclarator(declaration)`: a declarator with a
source range. -/
def isSelectableVariableDeclarator (n : Node) : Bool :=
  isVariableDeclarator n && isSelectableNode n

/-- The node's range with a dummy fallback. Code paths using it always
guard with `isSelectableNode` first, mirroring the source where the range
is known to exist at the point of use. -/
def locD (n : Node) : Loc := n.loc.getD ⟨⟨0, 0⟩, ⟨0, 0⟩⟩

/-- `selection.isInsideNode(node)` on the embedded tree: false when the
node carries no range (the source would only reach such a node after the
named-export patch supplied one). -/
def Selection.isInsideNode (sel : Selection) (n : Node) : Bool :=
  match n.loc with
  | none => false
  | some l => sel.isInsideLoc l

mutual

/-- `ast.areEqual` (babel `areEquivalent`, re-exported by the repository's
`ast` module): recursive structural equality of two nodes, ignoring object
identity and source locations. -/
def areEqual : Node → Node → Bool
  | .ident _ s, .ident _ s' => s == s'
  | .lit _ t, .lit _ t' => t == t'
  | .varDecl _ ds, .varDecl _ ds' => areEqualList ds ds'
  | .dtor _ i e, .dtor _ i' e' => areEqual i i' && areEqualOpt e e'
  | .assign _ a b, .assign _ a' b' => areEqual a a' && areEqual b b'
  | .unary _ a, .unary _ a' => areEqual a a'
  | .objProp _ k v s c, .objProp _ k' v' s' c' =>
      areEqual k k' && areEqual v v' && s == s' && c == c'
  | .objExpr _ ps, .objExpr _ ps' => areEqualList ps ps'
  | .member _ o p c, .member _ o' p' c' =>
      areEqual o o' && areEqual p p' && c == c'
  | .funcDecl _ f ps b, .funcDecl _ f' ps' b' =>
      areEqual f f' && areEqualList ps ps' && areEqual b b'
  | .arrowFn _ ps b, .arrowFn _ ps' b' => areEqualList ps ps' && areEqual b b'
  | .block _ b, .block _ b' => areEqualList b b'
  | .exprStmt _ e, .exprStmt _ e' => areEqual e e'
  | .program _ b, .program _ b' => areEqualList b b'
  | .exportNamed _ d, .exportNamed _ d' => areEqualOpt d d'
  | .exportDefault _ d, .exportDefault _ d' => areEqual d d'
  | .returnStmt _ a, .returnStmt _ a' => areEqualOpt a a'
  | .classDecl _ c, .classDecl _ c' => areEqual c c'
  | .ifStmt _ t c a, .ifStmt _ t' c' a' =>
      areEqual t t' && areEqual c c' && areEqualOpt a a'
  | .whileStmt _ t b, .whileStmt _ t' b' => areEqual t t' && areEqual b b'
  | .switchStmt _ d, .switchStmt _ d' => areEqual d d'
  | .forStmt _ b, .forStmt _ b' => areEqual b b'
  | .throwStmt _ a, .throwStmt _ a' => areEqual a a'
  | _, _ => false

/-- Pointwise `areEqual` on child lists. -/
def areEqualList : List Node → List Node → Bool
  | [], [] => true
  | a :: as, b :: bs => areEqual a b && areEqualList as bs
  | _, _ => false

/-- Pointwise `areEqual` on optional children. -/
def areEqualOpt : Option Node → Option Node → Bool
  | none, none => true
  | some a, some b => areEqual a b
  | _, _ => false

end

/-- One entry of babel's `TraversalAncestors`: the ancestor node together
with the visitor key (and index, for children stored in arrays) through
which the traversal descended. -/
structure TraversalAncestor where
  node : Node
  key : String
  index : Option Nat

/-- A visit of the babel traversal: the visited node together with its
ancestor path (root first, immediate parent last). -/
abbrev Visit := Node × List TraversalAncestor

mutual

/-- `ast.traverse` / `traverseAST` as a list of visits: depth-first
pre-order, visiting the root with an empty ancestor path and descending
through children in babel `VISITOR_KEYS` order. -/
def visitsAux : Node → List TraversalAncestor → List Visit
  | n@(.ident _ _), anc => [(n, anc)]
  | n@(.lit _ _), anc => [(n, anc)]
  | n@(.varDecl _ ds), anc =>
      (n, anc) :: visitsList ds n "declarations" 0 anc
  | n@(.dtor _ i e), anc =>
      (n, anc) :: (visitsAux i (anc ++ [⟨n, "id", none⟩]) ++
        visitsOpt e n "init" anc)
  | n@(.assign _ a b), anc =>
      (n, anc) :: (visitsAux a (anc ++ [⟨n, "left", none⟩]) ++
        visitsAux b (anc ++ [⟨n, "right", none⟩]))
  | n@(.unary _ a), anc =>
      (n, anc) :: visitsAux a (anc ++ [⟨n, "argument", none⟩])
  | n@(.objProp _ k v _ _), anc =>
      (n, anc) :: (visitsAux k (anc ++ [⟨n, "key", none⟩]) ++
        visitsAux v (anc ++ [⟨n, "value", none⟩]))
  | n@(.objExpr _ ps), anc =>
      (n, anc) :: visitsList ps n "properties" 0 anc
  | n@(.member _ o p _), anc =>
      (n, anc) :: (visitsAux o (anc ++ [⟨n, "object", none⟩]) ++
        visitsAux p (anc ++ [⟨n, "property", none⟩]))
  | n@(.funcDecl _ f ps b), anc =>
      (n, anc) :: (visitsAux f (anc ++ [⟨n, "id", none⟩]) ++
        (visitsList ps n "params" 0 anc ++
          visitsAux b (anc ++ [⟨n, "body", none⟩])))
  | n@(.arrowFn _ ps b), anc =>
      (n, anc) :: (visitsList ps n "params" 0 anc ++
        visitsAux b (anc ++ [⟨n, "body", none⟩]))
  | n@(.block _ b), anc => (n, anc) :: visitsList b n "body" 0 anc
  | n@(.exprStmt _ e), anc =>
      (n, anc) :: visitsAux e (anc ++ [⟨n, "expression", none⟩])
  | n@(.program _ b), anc => (n, anc) :: visitsList b n "body" 0 anc
  | n@(.exportNamed _ d), anc =>
      (n, anc) :: visitsOpt d n "declaration" anc
  | n@(.exportDefault _ d), anc =>
      (n, anc) :: visitsAux d (anc ++ [⟨n, "declaration", none⟩])
  | n@(.returnStmt _ a), anc => (n, anc) :: visitsOpt a n "argument" anc
  | n@(.classDecl _ c), anc =>
      (n, anc) :: visitsAux c (anc ++ [⟨n, "id", none⟩])
  | n@(.ifStmt _ t c a), anc =>
      (n, anc) :: (visitsAux t (anc ++ [⟨n, "test", none⟩]) ++
        (visitsAux c (anc ++ [⟨n, "consequent", none⟩]) ++
          visitsOpt a n "alternate" anc))
  | n@(.whileStmt _ t b), anc =>
      (n, anc) :: (visitsAux t (anc ++ [⟨n, "test", none⟩]) ++
        visitsAux b (anc ++ [⟨n, "body", none⟩]))
  | n@(.switchStmt _ d), anc =>
      (n, anc) :: visitsAux d (anc ++ [⟨n, "discriminant", none⟩])
  | n@(.forStmt _ b), anc =>
      (n, anc) :: visitsAux b (anc ++ [⟨n, "body", none⟩])
  | n@(.throwStmt _ a), anc =>
      (n, anc) :: visitsAux a (anc ++ [⟨n, "argument", none⟩])

/-- Traversal of an array-valued child (babel pushes `{node, key, index}`
on the ancestor stack for each element). -/
def visitsList : List Node → Node → String → Nat → List TraversalAncestor →
    List Visit
  | [], _, _, _, _ => []
  | c :: cs, p, k, i, anc =>
      visitsAux c (anc ++ [⟨p, k, some i⟩]) ++ visitsList cs p k (i + 1) anc

/-- Traversal of an optional child (skipped when absent, as babel skips
nullish children). -/
def visitsOpt : Option Node → Node → String → List TraversalAncestor →
    List Visit
  | none, _, _, _ => []
  | some c, p, k, anc => visitsAux c (anc ++ [⟨p, k, none⟩])

end

/-- All visits of a tree, root first. -/
def visits (root : Node) : List Visit := visitsAux root []

/-- The name of an identifier node (`""` on non-identifiers; every use is
guarded by `isIdentifier`, as in the source where the field access is
well-typed). -/
def identName : Node → String
  | .ident _ s => s
  | _ => ""

/-- The declarator list of a variable declaration (`node.declarations`). -/
def declarationsOf : Node → List Node
  | .varDecl _ ds => ds
  | _ => []

/-- The names bound by a declaration node (variable, function or class
declaration). -/
def declarationBoundNames : Node → List String
  | .varDecl _ ds =>
      ds.flatMap fun d =>
        match d with
        | .dtor _ (.ident _ s) _ => [s]
        | _ => []
  | .funcDecl _ (.ident _ s) _ _ => [s]
  | .classDecl _ (.ident _ s) => [s]
  | _ => []

/-- Modelled from the spec (§4.2 export detection; the module
`find-exported-id-names` is not in the provided sources): the names
introduced by export declarations reachable from the scope. -/
def findExportedIdNames (scope : Node) : List String :=
  (visits scope).flatMap fun v =>
    match v.1 with
    | .exportNamed _ (some d) => declarationBoundNames d
    | _ => []

/-- `isDeclaredInFunction` of `isShadowIn` (part_001 / scope.ts): the node
is a function declaration one of whose parameters equals `id`. -/
def isDeclaredInFunction (id : Node) : Node → Bool
  | .funcDecl _ _ ps _ => ps.any fun node => areEqual id node
  | _ => false

/-- `isDeclaredInScope` of `isShadowIn` (part_001 / scope.ts): the node is
a block statement whose direct body holds a variable declaration with a
declarator binding `id` on a different declarator node than `id` itself
(`declaration.id !== id`, reference inequality, modelled by `nid`). -/
def isDeclaredInScope (id : Node) : Node → Bool
  | .block _ body =>
      body.any fun child =>
        match child with
        | .varDecl _ ds =>
            ds.any fun declaration =>
              match declaration with
              | .dtor _ did _ => areEqual id did && !(did.nid == id.nid)
              | _ => false
        | _ => false
  | _ => false

/-- `isShadowIn(id, ancestors)` (part_001 lines 267–299, identical in
scope.ts lines 51–83): a variable is shadowed if one of its ancestors
redefines the identifier. -/
def isShadowIn (id : Node) (ancestors : List TraversalAncestor) : Bool :=
  ancestors.any fun a =>
    isDeclaredInFunction id a.node || isDeclaredInScope id a.node

/-- One replacement site (`IdentifierToReplace` of part_001):
`shorthandKey` is `null` (`none`) or the identifier name. -/
structure IdentifierToReplace where
  loc : Loc
  isInUnaryExpression : Bool
  shorthandKey : Option String
deriving DecidableEq, Repr

/-- The left side of an assignment expression. -/
def assignmentLeft : Node → Option Node
  | .assign _ l _ => some l
  | _ => none

/-- The parameter list of a function. -/
def funcParams : Node → List Node
  | .funcDecl _ _ ps _ => ps
  | .arrowFn _ ps _ => ps
  | _ => []

/-- The direct body of a block statement. -/
def blockBody : Node → List Node
  | .block _ b => b
  | _ => []

/-- The `id` of a variable declarator. -/
def declaratorId : Node → Option Node
  | .dtor _ i _ => some i
  | _ => none

/-- `parent.node.key === node`: the occurrence sits in the key position of
an object property (reference equality modelled by `nid`). -/
def usedAsObjectPropertyKey (parentNode node : Node) : Bool :=
  match parentNode with
  | .objProp _ k _ _ _ => k.nid == node.nid
  | _ => false

/-- `parent.node.property === node`: the occurrence sits in the property
position of a member expression (reference equality modelled by `nid`). -/
def usedAsMemberExpressionProperty (parentNode node : Node) : Bool :=
  match parentNode with
  | .member _ _ p _ => p.nid == node.nid
  | _ => false

/-- `node.shorthand`: the shorthand flag of an object property (absent,
hence falsy, on every other node kind). -/
def shorthandFlag : Node → Bool
  | .objProp _ _ _ sh _ => sh
  | _ => false

/-- The record `identifiersToReplace` pushes for a kept occurrence,
computed from the occurrence's immediate parent node: `shorthandKey` is
`node.name` when `isObjectProperty(parent.node) && parent.node.shorthand
&& isIdentifier(node)`, `null` otherwise. -/
def replacementFor (parentNode node : Node) : IdentifierToReplace :=
  { loc := locD node,
    isInUnaryExpression := isUnaryExpression parentNode,
    shorthandKey :=
      if isObjectProperty parentNode && shorthandFlag parentNode &&
          isIdentifier node then
        some (identName node)
      else none }

/-- The data of the `InlinableIdentifier` class (the Leaf variant): the
declared identifier, the enclosing scope node (`parent` of the variable
declaration) and the initializer's range (`valueLoc`). -/
structure InlinableIdentifier where
  id : Node
  scope : Node
  valueLoc : Loc

namespace InlinableIdentifier

/-- `this.selection = Selection.fromAST(valueLoc)`. -/
def selection (x : InlinableIdentifier) : Selection :=
  Selection.fromAST x.valueLoc

/-- `get isRedeclared()`: some assignment expression in the scope has a
left side equal to the identifier. -/
def isRedeclared (x : InlinableIdentifier) : Bool :=
  (visits x.scope).any fun v =>
    match v.1 with
    | .assign _ left _ => areEqual x.id left
    | _ => false

/-- `get isExported()`: the identifier's name is among the scope's
exported names. -/
def isExported (x : InlinableIdentifier) : Bool :=
  (findExportedIdNames x.scope).contains (identName x.id)

/-- The dead guard of `identifiersToReplace`: the source applies the babel
node type-guard `isFunctionDeclaration` to `last(ancestors)`, which is a
`TraversalAncestors` entry `{node, key, index}`, not a node; the guard
reads the entry's absent `type` field and is therefore always false. -/
def entryGuard (_ : TraversalAncestor) : Bool := false

/-- `get identifiersToReplace()`: traverse the scope and collect every
matching identifier occurrence, in traversal order. When `ancestors` is
empty the visited node is the scope root itself, which is the parent of a
variable declaration and never equals the identifier; the source would
dereference `undefined` there, modelled as a skip. -/
def identifiersToReplace (x : InlinableIdentifier) :
    List IdentifierToReplace :=
  (visits x.scope).filterMap fun v =>
    let node := v.1
    let ancestors := v.2
    if ¬ isSelectableNode node then none
    else if ¬ areEqual x.id node then none
    else if isShadowIn x.id ancestors then none
    else
      let selection := Selection.fromAST (locD node)
      let isSameIdentifier := selection.isInsideNode x.id
      if isSameIdentifier then none
      else
        match ancestors.getLast? with
        | none => none
        | some parent =>
          if entryGuard parent then none
          else if usedAsObjectPropertyKey parent.node node then none
          else if usedAsMemberExpressionProperty parent.node node then none
          else some (replacementFor parent.node node)

/-- `get codeToRemoveSelection()` of the Leaf: the initializer's selection
extended back to the identifier, then to the start of its line, then to
the start of the next line. -/
def codeToRemoveSelection (x : InlinableIdentifier) : Selection :=
  ((x.selection.extendStartTo
      (Selection.fromAST (locD x.id))).extendToStartOfLine).extendToStartOfNextLine

end InlinableIdentifier

/-- `MultiDeclarationsLocs` of part_001. -/
structure MultiDeclarationsLocs where
  isOtherAfterCurrent : Bool
  current : Loc
  other : Loc
deriving DecidableEq, Repr

/-- `InlinableCode`: the Leaf (`InlinableIdentifier`) or the Composite
(`InlinableDeclarations`, which in the source wraps an `InlinableCode`
child but is only ever constructed over a Leaf). -/
inductive InlinableCode where
  | leaf (x : InlinableIdentifier)
  | composite (child : InlinableIdentifier)
      (declarationsLocs : MultiDeclarationsLocs)

namespace InlinableCode

/-- The underlying Leaf (the Composite delegates every shared field). -/
def child : InlinableCode → InlinableIdentifier
  | leaf x => x
  | composite x _ => x

/-- `selection` (the Composite delegates to its child). -/
def selection (c : InlinableCode) : Selection := c.child.selection

/-- `isRedeclared` (the Composite delegates to its child). -/
def isRedeclared (c : InlinableCode) : Bool := c.child.isRedeclared

/-- `isExported` (the Composite delegates to its child). -/
def isExported (c : InlinableCode) : Bool := c.child.isExported

/-- `identifiersToReplace` (the Composite delegates to its child). -/
def identifiersToReplace (c : InlinableCode) : List IdentifierToReplace :=
  c.child.identifiersToReplace

/-- `codeToRemoveSelection`: the only member the Composite computes
itself, merging the current declarator's range with the chosen sibling. -/
def codeToRemoveSelection : InlinableCode → Selection
  | leaf x => x.codeToRemoveSelection
  | composite _ locs =>
      if locs.isOtherAfterCurrent then
        (Selection.fromAST locs.current).extendEndTo
          (Selection.fromAST locs.other)
      else
        (Selection.fromAST locs.current).extendStartTo
          (Selection.fromAST locs.other)

end InlinableCode

/-- The single-declarator branch of `findInlinableCode`'s `enter`
callback: `none` when a guard fails and `result` is left untouched. -/
def singleResultFor (scope : Node) (d : Node) : Option InlinableCode :=
  match d with
  | .dtor _ id (some init) =>
      if ¬ isSelectableIdentifier id then none
      else if ¬ isSelectableNode init then none
      else some (.leaf ⟨id, scope, locD init⟩)
  | _ => none

/-- The body of `declarations.forEach` in the multi-declarator branch, for
the declarator at `index`: `none` when the body returns without assigning
`result`. `declarations[index - 1]` is `undefined` in JavaScript when
`index` is `0`. -/
def multiDeclaratorMatch (scope : Node) (sel : Selection)
    (declarations : List Node) (index : Nat) : Option InlinableCode :=
  match declarations[index]? with
  | none => none
  | some declaration =>
    if ¬ sel.isInsideNode declaration then none
    else
      let previousDeclaration : Option Node :=
        if index == 0 then none else declarations[index - 1]?
      let nextDeclaration : Option Node := declarations[index + 1]?
      -- We prefer to use the next declaration by default.
      -- Fallback on previous declaration when current is the last one.
      match nextDeclaration, previousDeclaration with
      | none, none => none
      | someNext, somePrevious =>
        let declarationsLocs : MultiDeclarationsLocs :=
          match someNext, somePrevious with
          | some nextD, _ => ⟨true, locD declaration, locD nextD⟩
          | none, some prevD => ⟨false, locD declaration, locD prevD⟩
          -- unreachable: the enclosing match already ruled out none/none
          | none, none => ⟨false, locD declaration, locD declaration⟩
        match declaration with
        | .dtor _ id (some init) =>
            if ¬ isSelectableIdentifier id then none
            else if ¬ isSelectableNode init then none
            else some (.composite ⟨id, scope, locD init⟩ declarationsLocs)
        | _ => none

/-- The multi-declarator branch: the `forEach` updates `result` once per
matching declarator, the last assignment winning; `none` when no
declarator assigns. -/
def multiResultFor (scope : Node) (sel : Selection)
    (declarations : List Node) : Option InlinableCode :=
  (List.range declarations.length).foldl
    (fun acc index =>
      (multiDeclaratorMatch scope sel declarations index).elim acc some)
    none

/-- The `enter` callback of `findInlinableCode` for one visit, with the
named-export range patch applied first: `none` when the callback leaves
`result` untouched, `some` when it assigns it. A variable declaration is
never the traversal root (the root is the parsed file), so a missing
parent skips. -/
def inlinableMatch (sel : Selection) (v : Visit) : Option InlinableCode :=
  let parent : Option Node := (v.2.getLast?).map (·.node)
  -- It seems variable declaration inside a named export may have no loc.
  -- Use the named export loc in that situation.
  let node :=
    match parent with
    | some p =>
        if isExportNamedDeclaration p && ¬ isSelectableNode v.1 then
          v.1.withLoc p.loc
        else v.1
    | none => v.1
  if ¬ isVariableDeclaration node then none
  else if ¬ sel.isInsideNode node then none
  else
    match parent with
    | none => none
    | some scope =>
      let declarations :=
        (declarationsOf node).filter isSelectableVariableDeclarator
      match declarations with
      | [d] => singleResultFor scope d
      | ds => multiResultFor scope sel ds

/-- `findInlinableCode`: traverse the whole tree, the `result` variable
keeping the last assignment made by any `enter` callback. -/
def findInlinableCode (root : Node) (sel : Selection) :
    Option InlinableCode :=
  (visits root).foldl
    (fun result v => (inlinableMatch sel v).elim result some) none

/-- `ErrorReason` (editor module). -/
inductive ErrorReason where
  | DidNotFoundInlinableCode
  | CantInlineRedeclaredVariables
  | CantInlineExportedVariables
  | DidNotFoundInlinableCodeIdentifiers
deriving DecidableEq, Repr

/-- One text edit handed to the editor: replacement text and range. -/
structure Edit where
  code : String
  selection : Selection
deriving DecidableEq, Repr

/-- The observable outcome of one `inlineVariable` invocation: either a
single `showError` call, or a single `readThenWrite` call carrying the
initializer's selection and the data its callback closes over. -/
inductive InlineResult where
  | showError (reason : ErrorReason)
  | readThenWrite (selection : Selection)
      (idsToReplace : List IdentifierToReplace)
      (codeToRemoveSelection : Selection)

/-- `inlineVariable(code, selection, editor)` (part_001 lines 10–57). -/
def inlineVariable (root : Node) (selection : Selection) : InlineResult :=
  match findInlinableCode root selection with
  | none => .showError .DidNotFoundInlinableCode
  | some inlinableCode =>
    if inlinableCode.isRedeclared then
      .showError .CantInlineRedeclaredVariables
    else if inlinableCode.isExported then
      .showError .CantInlineExportedVariables
    else
      let idsToReplace := inlinableCode.identifiersToReplace
      if idsToReplace.length == 0 then
        .showError .DidNotFoundInlinableCodeIdentifiers
      else
        .readThenWrite inlinableCode.selection idsToReplace
          inlinableCode.codeToRemoveSelection

/-- The replacement text for one site, from the ternary in the
`readThenWrite` callback: parenthesized in a unary expression, re-expanded
`key: value` for a shorthand property, verbatim otherwise. -/
def replacementCode (r : IdentifierToReplace) (inlinedCode : String) :
    String :=
  if r.isInUnaryExpression then "(" ++ inlinedCode ++ ")"
  else
    match r.shorthandKey with
    | some k => k ++ ": " ++ inlinedCode
    | none => inlinedCode

/-- The edit list the `readThenWrite` callback builds from the text
`inlinedCode` read at the initializer's selection: one replacement per
identifier, then the deletion of the declaration. -/
def buildInlineEdits (inlinedCode : String)
    (idsToReplace : List IdentifierToReplace)
    (codeToRemoveSelection : Selection) : List Edit :=
  (idsToReplace.map fun r =>
    { code := replacementCode r inlinedCode,
      selection := Selection.fromAST r.loc }) ++
  [{ code := "", selection := codeToRemoveSelection }]

/-- The edits an invocation emits, given the text the editor would read:
none at all when the outcome is `showError`. -/
def InlineResult.emittedEdits : InlineResult → String → List Edit
  | .showError _, _ => []
  | .readThenWrite _ ids rm, inlined => buildInlineEdits inlined ids rm

/-- The predicate of `findScopePath` (scope.ts lines 21–37) on one
candidate ancestor, given that candidate's own parent (`parentPath` of the
candidate, `none` above the root). -/
def isScopeAnchor (n : Node) (parentOfN : Option Node) : Bool :=
  isExpressionStatement n ||
  (isVariableDeclaration n &&
    !(parentOfN.elim false isExportDeclaration)) ||
  isReturnStatement n ||
  isClassDeclaration n ||
  (isIfStatement n && !(parentOfN.elim false isIfStatement)) ||
  isWhileStatement n ||
  isSwitchStatement n ||
  isExportDeclaration n ||
  isForStatement n ||
  isThrowStatement n

/-- Pair each node of a nearest-first ancestor chain with its own parent
(the next element of the chain). -/
def pairWithParents : List Node → List (Node × Option Node)
  | [] => []
  | n :: rest => (n, rest.head?) :: pairWithParents rest

/-- `path.findParent(...)` specialized to `findScopePath`'s predicate:
scan the nearest-first chain for the first anchor. -/
def findScopeGo : List (Node × Option Node) → Option Node
  | [] => none
  | (n, p) :: rest => if isScopeAnchor n p then some n else findScopeGo rest

/-- `findScopePath(path)` (scope.ts lines 21–37), embedded over the
node's ancestor chain (root first, immediate parent last — the node
itself is not a candidate, as `findParent` starts at `parentPath`). -/
def findScopePath (ancestors : List Node) : Option Node :=
  findScopeGo (pairWithParents ancestors.reverse)

/-- `DestructureStrategy` (extract-variable). -/
inductive DestructureStrategy where
  | Destructure
  | Preserve
deriving DecidableEq, Repr

/-- One `{label, value}` option handed to `askUserChoice`. -/
structure UserChoice where
  label : String
  value : DestructureStrategy
deriving DecidableEq, Repr

/-- Modelled from the spec (§3, §4.3): the extracted node as the
destructure decision sees it — either a member-expression chain
`base.s1...sk` (each segment flagged when it is a computed access), or
any other extractable node (object literal, string literal, ...). -/
inductive ExtractedShape where
  | memberChain (base : String) (segments : List (String × Bool))
  | notAChain (text : String)
deriving DecidableEq, Repr

/-- Render one chain segment as source text. -/
def renderSegment : String × Bool → String
  | (s, true) => "[" ++ s ++ "]"
  | (s, false) => "." ++ s

/-- Render a whole chain as source text. -/
def chainText (base : String) (segments : List (String × Bool)) : String :=
  base ++ String.join (segments.map renderSegment)

/-- Modelled from the spec (§4.3 step 3, §6, §8; the extract-variable
implementation is not among the provided sources — its behavior is pinned
by `extract-variable.extractable-objects.test.ts`): the options
`extractVariable` passes to `askUserChoice`, or `none` when it never calls
it. The prompt fires exactly for a non-computed member chain of two or
more links, with the fixed order `[Destructure, Preserve]` and labels
showing the literal resulting code. -/
def askUserChoiceOptions : ExtractedShape → Option (List UserChoice)
  | .notAChain _ => none
  | .memberChain base segments =>
    if segments.isEmpty then none
    else if segments.any (fun s => s.2) then none
    else
      let lastName := (segments.getLast?.map (fun s => s.1)).getD ""
      let chainMinusLast := chainText base segments.dropLast
      some
        [⟨"Destructure => `const \x7b " ++ lastName ++ " \x7d = " ++
            chainMinusLast ++ "`", .Destructure⟩,
         ⟨"Preserve => `const " ++ lastName ++ " = " ++
            chainText base segments ++ "`", .Preserve⟩]

/-- One refactoring registration (`RefactoringWithActionProvider`):
`matchesAt` abstracts `actionProvider.createVisitor` — whether the visitor
built for the given selection reports a match when the traversal reaches
the given node (`updateMessage`, which only rewrites the human-readable
message, is not modelled). -/
structure RefactoringConfig where
  key : String
  title : String
  message : String
  isPreferred : Bool
  matchesAt : Selection → Node → Bool

/-- The observable fields of the produced `vscode.CodeAction`. -/
structure CodeAction where
  title : String
  isPreferred : Bool
  command : String
  commandTitle : String
deriving DecidableEq, Repr

/-- JavaScript `String.prototype.includes`: `needle` occurs contiguously
in the list. -/
def includesSub (needle : List Char) : List Char → Bool
  | [] => needle.isEmpty
  | c :: rest => needle.isPrefixOf (c :: rest) || includesSub needle rest

/-- `isNavigatingAnIgnoredFile` (part_002 lines 44–48):
`filePath.includes("/" + ignored + "/")` for some ignored folder. -/
def isNavigatingAnIgnoredFile (ignoredFolders : List String)
    (filePath : String) : Bool :=
  ignoredFolders.any fun ignored =>
    includesSub (("/" ++ ignored ++ "/").toList) filePath.toList

/-- JavaScript `Map.prototype.set` on an insertion-ordered association
list: an existing key keeps its position and gets the new value, a new key
is appended. -/
def mapSet (m : List (String × RefactoringConfig)) (k : String)
    (v : RefactoringConfig) : List (String × RefactoringConfig) :=
  if m.any (fun kv => kv.1 == k) then
    m.map fun kv => if kv.1 == k then (k, v) else kv
  else m ++ [(k, v)]

/-- `findApplicableRefactorings` (part_002 lines 50–94): for every visited
node, try every refactoring that passes `shouldShowInQuickFix` (modelled
as membership in `quickFixKeys`); a match does `map.set(key, refactoring)`;
the result is `Array.from(map.values())`. -/
def findApplicableRefactorings (refactorings : List RefactoringConfig)
    (quickFixKeys : List String) (ast : Node) (sel : Selection) :
    List RefactoringConfig :=
  let refactoringsToCheck :=
    refactorings.filter fun r => quickFixKeys.contains r.key
  ((visits ast).foldl
      (fun m v =>
        refactoringsToCheck.foldl
          (fun m r => if r.matchesAt sel v.1 then mapSet m r.key r else m)
          m)
      []).map fun kv => kv.2

/-- `buildCodeActionFor` (part_002 lines 108–121). -/
def buildCodeActionFor (r : RefactoringConfig) : CodeAction :=
  ⟨r.message ++ " ✨", r.isPreferred, "abracadabra." ++ r.key, r.title⟩

/-- The state `createVSCodeEditor` exposes when it succeeds. -/
structure EditorState where
  code : String
  selection : Selection

/-- `RefactoringActionProvider.provideCodeActions` (part_002 lines
19–42): `parse` models `t.parse`, with `none` standing for a thrown parse
error, which the `catch` turns into the empty action list. -/
def provideCodeActions (refactorings : List RefactoringConfig)
    (ignoredFolders quickFixKeys : List String) (filePath : String)
    (editor : Option EditorState) (parse : String → Option Node) :
    List CodeAction :=
  if isNavigatingAnIgnoredFile ignoredFolders filePath then []
  else
    match editor with
    | none => []
    | some ed =>
      match parse ed.code with
      | none => []
      | some ast =>
        (findApplicableRefactorings refactorings quickFixKeys ast
            ed.selection).map buildCodeActionFor

/-! ## Concrete fixtures used by the witnesses -/

/-- Build a range from line/column numbers. -/
def mkLoc (l1 c1 l2 c2 : Nat) : Loc := ⟨⟨l1, c1⟩, ⟨l2, c2⟩⟩

/-- Fixture, two nested multi-declarator declarations:

```
const a = 1, b = () => {
  const c = 2, d = 3;
};
```
-/
def nestedIdA : Node := .ident ⟨3, some (mkLoc 0 6 0 7)⟩ "a"

/-- `a`'s initializer `1`. -/
def nestedLit1 : Node := .lit ⟨4, some (mkLoc 0 10 0 11)⟩ "1"

/-- The declarator `a = 1`. -/
def nestedDtorA : Node := .dtor ⟨2, some (mkLoc 0 6 0 11)⟩ nestedIdA (some nestedLit1)

/-- The identifier `b`. -/
def nestedIdB : Node := .ident ⟨6, some (mkLoc 0 13 0 14)⟩ "b"

/-- The identifier `c`. -/
def nestedIdC : Node := .ident ⟨11, some (mkLoc 1 8 1 9)⟩ "c"

/-- `c`'s initializer `2`. -/
def nestedLit2 : Node := .lit ⟨12, some (mkLoc 1 12 1 13)⟩ "2"

/-- The declarator `c = 2`. -/
def nestedDtorC : Node := .dtor ⟨10, some (mkLoc 1 8 1 13)⟩ nestedIdC (some nestedLit2)

/-- The identifier `d`. -/
def nestedIdD : Node := .ident ⟨14, some (mkLoc 1 15 1 16)⟩ "d"

/-- `d`'s initializer `3`. -/
def nestedLit3 : Node := .lit ⟨15, some (mkLoc 1 19 1 20)⟩ "3"

/-- The declarator `d = 3`. -/
def nestedDtorD : Node := .dtor ⟨13, some (mkLoc 1 15 1 20)⟩ nestedIdD (some nestedLit3)

/-- The inner declaration `const c = 2, d = 3;`. -/
def nestedInnerDecl : Node := .varDecl ⟨9, some (mkLoc 1 2 1 21)⟩ [nestedDtorC, nestedDtorD]

/-- The arrow-function body block. -/
def nestedBlock : Node := .block ⟨8, some (mkLoc 0 24 2 1)⟩ [nestedInnerDecl]

/-- `b`'s initializer, the arrow function. -/
def nestedArrow : Node := .arrowFn ⟨7, some (mkLoc 0 17 2 1)⟩ [] nestedBlock

/-- The declarator `b = () => { ... }`. -/
def nestedDtorB : Node := .dtor ⟨5, some (mkLoc 0 13 2 1)⟩ nestedIdB (some nestedArrow)

/-- The outer declaration `const a = 1, b = ...;`. -/
def nestedOuterDecl : Node := .varDecl ⟨1, some (mkLoc 0 0 2 2)⟩ [nestedDtorA, nestedDtorB]

/-- The whole program. -/
def nestedProg : Node := .program ⟨0, some (mkLoc 0 0 2 2)⟩ [nestedOuterDecl]

/-- A cursor on `c`'s declarator — inside both the inner and (through
`b`'s initializer) the outer multi-declarator declaration. -/
def nestedSel : Selection := ⟨⟨1, 8⟩, ⟨1, 9⟩⟩

/-- The match the outer declaration produces (first in traversal order):
`b` is the last declarator, so the sibling is the previous one, `a`. -/
def nestedOuterMatch : InlinableCode :=
  .composite ⟨nestedIdB, nestedProg, mkLoc 0 17 2 1⟩
    ⟨false, mkLoc 0 13 2 1, mkLoc 0 6 0 11⟩

/-- The match the inner declaration produces (last in traversal order):
`c` has a next sibling, `d`. -/
def nestedInnerMatch : InlinableCode :=
  .composite ⟨nestedIdC, nestedBlock, mkLoc 1 12 1 13⟩
    ⟨true, mkLoc 1 8 1 13, mkLoc 1 15 1 20⟩

/-- The deletion-direction flag, used to tell the two matches apart. -/
def InlinableCode.otherAfterFlag : InlinableCode → Bool
  | .leaf _ => false
  | .composite _ locs => locs.isOtherAfterCurrent

/-- Fixture:

```
const foo = "bar";
foo;
```
-/
def singleFooId : Node := .ident ⟨3, some (mkLoc 0 6 0 9)⟩ "foo"

/-- The initializer `"bar"`. -/
def singleInit : Node := .lit ⟨4, some (mkLoc 0 12 0 17)⟩ "bar"

/-- The declarator `foo = "bar"`. -/
def singleDtor : Node :=
  .dtor ⟨2, some (mkLoc 0 6 0 17)⟩ singleFooId (some singleInit)

/-- The declaration `const foo = "bar";`. -/
def singleDecl : Node := .varDecl ⟨1, some (mkLoc 0 0 0 18)⟩ [singleDtor]

/-- The use of `foo` on the second line. -/
def singleUse : Node := .ident ⟨6, some (mkLoc 1 0 1 3)⟩ "foo"

/-- The statement `foo;`. -/
def singleStmt : Node := .exprStmt ⟨5, some (mkLoc 1 0 1 4)⟩ singleUse

/-- The whole program. -/
def singleProg : Node :=
  .program ⟨0, some (mkLoc 0 0 1 4)⟩ [singleDecl, singleStmt]

/-- A cursor on the declared `foo`. -/
def singleSel : Selection := ⟨⟨0, 7⟩, ⟨0, 7⟩⟩

/-- Fixture:

```
const foo = 1;
-foo;
({ foo });
```

one unary use and one shorthand-property use of `foo`. -/
def mixedFooId : Node := .ident ⟨3, some (mkLoc 0 6 0 9)⟩ "foo"

/-- The initializer `1`. -/
def mixedLit : Node := .lit ⟨4, some (mkLoc 0 12 0 13)⟩ "1"

/-- The declarator `foo = 1`. -/
def mixedDtor : Node :=
  .dtor ⟨2, some (mkLoc 0 6 0 13)⟩ mixedFooId (some mixedLit)

/-- The declaration. -/
def mixedDecl : Node := .varDecl ⟨1, some (mkLoc 0 0 0 14)⟩ [mixedDtor]

/-- The use of `foo` inside the unary minus. -/
def mixedUnaryUse : Node := .ident ⟨7, some (mkLoc 1 1 1 4)⟩ "foo"

/-- The unary expression `-foo`. -/
def mixedUnary : Node := .unary ⟨6, some (mkLoc 1 0 1 4)⟩ mixedUnaryUse

/-- The statement `-foo;`. -/
def mixedStmt1 : Node := .exprStmt ⟨5, some (mkLoc 1 0 1 5)⟩ mixedUnary

/-- The shorthand property's key node. -/
def mixedKey : Node := .ident ⟨11, some (mkLoc 2 3 2 6)⟩ "foo"

/-- The shorthand property's value node (same range, distinct node). -/
def mixedVal : Node := .ident ⟨12, some (mkLoc 2 3 2 6)⟩ "foo"

/-- The shorthand property `foo`. -/
def mixedProp : Node :=
  .objProp ⟨10, some (mkLoc 2 3 2 6)⟩ mixedKey mixedVal true false

/-- The object literal. -/
def mixedObj : Node := .objExpr ⟨9, some (mkLoc 2 1 2 9)⟩ [mixedProp]

/-- The statement holding the object literal. -/
def mixedStmt2 : Node := .exprStmt ⟨8, some (mkLoc 2 0 2 10)⟩ mixedObj

/-- The whole program. -/
def mixedProg : Node :=
  .program ⟨0, some (mkLoc 0 0 2 10)⟩ [mixedDecl, mixedStmt1, mixedStmt2]

/-- Fixture:

```
const foo = 1;
foo = 2;
```
-/
def redeclFooId : Node := .ident ⟨3, some (mkLoc 0 6 0 9)⟩ "foo"

/-- The initializer `1`. -/
def redeclLit : Node := .lit ⟨4, some (mkLoc 0 12 0 13)⟩ "1"

/-- The declarator `foo = 1`. -/
def redeclDtor : Node :=
  .dtor ⟨2, some (mkLoc 0 6 0 13)⟩ redeclFooId (some redeclLit)

/-- The declaration. -/
def redeclDecl : Node := .varDecl ⟨1, some (mkLoc 0 0 0 14)⟩ [redeclDtor]

/-- The left side of the reassignment. -/
def redeclLeft : Node := .ident ⟨7, some (mkLoc 1 0 1 3)⟩ "foo"

/-- The reassignment `foo = 2`. -/
def redeclAssign : Node :=
  .assign ⟨6, some (mkLoc 1 0 1 7)⟩ redeclLeft (.lit ⟨8, some (mkLoc 1 6 1 7)⟩ "2")

/-- The statement `foo = 2;`. -/
def redeclStmt : Node := .exprStmt ⟨5, some (mkLoc 1 0 1 8)⟩ redeclAssign

/-- The whole program. -/
def redeclProg : Node :=
  .program ⟨0, some (mkLoc 0 0 1 8)⟩ [redeclDecl, redeclStmt]

/-- The inlinable code the fixture produces. -/
def redeclIC : InlinableCode :=
  .leaf ⟨redeclFooId, redeclProg, mkLoc 0 12 0 13⟩

/-- Fixture: `export const foo = 1;`. -/
def exportFooId : Node := .ident ⟨3, some (mkLoc 0 13 0 16)⟩ "foo"

/-- The declarator `foo = 1`. -/
def exportDtor : Node :=
  .dtor ⟨2, some (mkLoc 0 13 0 20)⟩ exportFooId
    (some (.lit ⟨4, some (mkLoc 0 19 0 20)⟩ "1"))

/-- The exported declaration. -/
def exportDecl : Node := .varDecl ⟨1, some (mkLoc 0 7 0 21)⟩ [exportDtor]

/-- The named export. -/
def exportNode : Node := .exportNamed ⟨5, some (mkLoc 0 0 0 21)⟩ (some exportDecl)

/-- The whole program. -/
def exportProg : Node := .program ⟨0, some (mkLoc 0 0 0 21)⟩ [exportNode]

/-- The inlinable code the fixture produces: its scope is the named
export, the parent of the declaration. -/
def exportIC : InlinableCode :=
  .leaf ⟨exportFooId, exportNode, mkLoc 0 19 0 20⟩

/-- Fixture: `const foo = 1;` with no use at all. -/
def noUseFooId : Node := .ident ⟨3, some (mkLoc 0 6 0 9)⟩ "foo"

/-- The declarator `foo = 1`. -/
def noUseDtor : Node :=
  .dtor ⟨2, some (mkLoc 0 6 0 13)⟩ noUseFooId
    (some (.lit ⟨4, some (mkLoc 0 12 0 13)⟩ "1"))

/-- The declaration. -/
def noUseDecl : Node := .varDecl ⟨1, some (mkLoc 0 0 0 14)⟩ [noUseDtor]

/-- The whole program. -/
def noUseProg : Node := .program ⟨0, some (mkLoc 0 0 0 14)⟩ [noUseDecl]

/-- The inlinable code the fixture produces. -/
def noUseIC : InlinableCode :=
  .leaf ⟨noUseFooId, noUseProg, mkLoc 0 12 0 13⟩

/-- A cursor on the declared identifier of each fixture. -/
def declCursor : Selection := ⟨⟨0, 7⟩, ⟨0, 7⟩⟩

/-- A cursor inside the exported declaration. -/
def exportCursor : Selection := ⟨⟨0, 14⟩, ⟨0, 14⟩⟩

/-- The invariant of the `applicableRefactorings` map: distinct keys, each
key being its refactoring's command key. -/
def MapInv (m : List (String × RefactoringConfig)) : Prop :=
  (m.map Prod.fst).Nodup ∧ ∀ kv ∈ m, kv.1 = kv.2.key

/-- A concrete refactoring registration whose visitor matches at every
node. -/
def alwaysRefactoring : RefactoringConfig :=
  ⟨"flipIfElse", "Flip If/Else", "Flip if/else", true, fun _ _ => true⟩

/-! ## Helper lemmas -/

lemma elim_false_eq_true {α : Type _} {o : Option α} {f : α → Bool} :
    o.elim false f = true ↔ ∃ x, o = some x ∧ f x = true := by
  cases o <;> simp

lemma any_congr' {α : Type _} {l : List α} {p q : α → Bool}
    (h : ∀ a ∈ l, p a = q a) : l.any p = l.any q := by
  induction l with
  | nil => rfl
  | cons a l ih =>
    simp only [List.any_cons, h a (List.mem_cons_self a l)]
    rw [ih fun x hx => h x (List.mem_cons_of_mem a hx)]

/-- `isDeclaredInFunction` as a guard-and-scan over the accessors. -/
lemma isDeclaredInFunction_eq (id n : Node) :
    isDeclaredInFunction id n =
      (isFunctionDeclaration n &&
        (funcParams n).any fun p => areEqual id p) := by
  cases n <;> rfl

/-- `isDeclaredInScope` as a guard-and-scan over the accessors. -/
lemma isDeclaredInScope_eq (id n : Node) :
    isDeclaredInScope id n =
      (isBlockStatement n && (blockBody n).any fun child =>
        isVariableDeclaration child && (declarationsOf child).any fun d =>
          (declaratorId d).elim false fun di =>
            areEqual id di && !(di.nid == id.nid)) := by
  cases n with
  | block m body =>
    show (isDeclaredInScope id (.block m body)) = body.any _
    rw [isDeclaredInScope]
    refine any_congr' fun child _ => ?_
    cases child with
    | varDecl m' ds =>
      show ds.any _ = (true && ds.any _)
      rw [Bool.true_and]
      refine any_congr' fun d _ => ?_
      cases d <;> rfl
    | _ => rfl
  | _ => rfl

lemma getLast?_cons_or {α : Type _} (b : α) (xs : List α) :
    (b :: xs).getLast? = xs.getLast?.or (some b) := by
  cases xs with
  | nil => rfl
  | cons c cs =>
    rw [List.getLast?_cons_cons]
    have h : (c :: cs).getLast?.isSome := by
      rw [List.getLast?_isSome]
      exact List.cons_ne_nil c cs
    obtain ⟨y, hy⟩ := Option.isSome_iff_exists.mp h
    rw [hy]
    rfl

/-- A left fold where each step either keeps the accumulator (when the
step yields `none`) or overwrites it computes the last produced value:
"last writer wins". -/
lemma foldl_override {α β : Type _} (f : α → Option β) (l : List α)
    (init : Option β) :
    l.foldl (fun acc a => (f a).elim acc some) init =
      ((l.filterMap f).getLast?).or init := by
  induction l generalizing init with
  | nil => rfl
  | cons a l ih =>
    rw [List.foldl_cons, List.filterMap_cons]
    cases hfa : f a with
    | none => exact ih init
    | some b =>
      show l.foldl (fun acc a => (f a).elim acc some) (some b) =
        ((b :: l.filterMap f).getLast?).or init
      rw [ih (some b), getLast?_cons_or]
      cases (l.filterMap f).getLast? <;> rfl

/-! ## C3 — shadow detection -/

/-- C3: an identifier `id` is shadowed with respect to an ancestor path if
and only if some ancestor node is (a) a function declaration with a
parameter structurally equal to `id`, or (b) a block statement whose
direct body contains a variable declaration with a declarator whose id is
structurally equal to `id` but is a different node (`di.nid ≠ id.nid`)
than `id`'s own declaration — so an identifier is never flagged as
shadowed by its own declarator node. -/
theorem isShadowIn_characterization (id : Node)
    (ancestors : List TraversalAncestor) :
    isShadowIn id ancestors = true ↔
      ∃ a ∈ ancestors,
        (isFunctionDeclaration a.node = true ∧
          ∃ p ∈ funcParams a.node, areEqual id p = true) ∨
        (isBlockStatement a.node = true ∧
          ∃ child ∈ blockBody a.node,
            isVariableDeclaration child = true ∧
            ∃ d ∈ declarationsOf child,
              ∃ di, declaratorId d = some di ∧
                areEqual id di = true ∧ di.nid ≠ id.nid) := by
  rw [isShadowIn, List.any_eq_true]
  refine exists_congr fun a => and_congr_right fun _ => ?_
  rw [Bool.or_eq_true, isDeclaredInFunction_eq, isDeclaredInScope_eq]
  simp only [Bool.and_eq_true, List.any_eq_true, elim_false_eq_true,
    Bool.not_eq_true', beq_eq_false_iff_ne, ne_eq]

/-- Witness for C3: a path whose single ancestor is a function declaration
with a parameter named like the identifier is recognized as shadowing. -/
theorem isShadowIn_characterization_witness :
    isShadowIn (.ident ⟨1, none⟩ "x")
      [⟨.funcDecl ⟨2, none⟩ (.ident ⟨3, none⟩ "f") [.ident ⟨4, none⟩ "x"]
          (.block ⟨5, none⟩ []), "body", none⟩] = true :=
  (isShadowIn_characterization _ _).mpr
    ⟨_, List.mem_cons_self _ _,
      Or.inl ⟨rfl, .ident ⟨4, none⟩ "x", List.mem_cons_self _ _, rfl⟩⟩

/-! ## C9 — which match `findInlinableCode` returns -/

/-- C9 counterexample: with the selection inside two matching
multi-declarator declarations, the first match found during traversal is
the outer one, yet `findInlinableCode` returns the inner (nearest) one —
the last written, not the first. -/
theorem findInlinableCode_returns_last_not_first :
    ((visits nestedProg).filterMap (inlinableMatch nestedSel)).head? =
        some nestedOuterMatch ∧
      findInlinableCode nestedProg nestedSel = some nestedInnerMatch ∧
      nestedInnerMatch ≠ nestedOuterMatch := by
  refine ⟨rfl, rfl, fun h => ?_⟩
  have hflag := congrArg InlinableCode.otherAfterFlag h
  simp [nestedInnerMatch, nestedOuterMatch, InlinableCode.otherAfterFlag]
    at hflag

/-- C9 amended: `findInlinableCode` returns the last match assigned during
the pre-order traversal — the "last writer wins" behavior of the `result`
variable; for nested matches this is the innermost declaration, the one
nearest the selection. -/
theorem findInlinableCode_last_writer_wins (root : Node) (sel : Selection) :
    findInlinableCode root sel =
      ((visits root).filterMap (inlinableMatch sel)).getLast? := by
  rw [findInlinableCode, foldl_override]
  cases ((visits root).filterMap (inlinableMatch sel)).getLast? <;> rfl

/-! ## C7 — `findScopePath` -/

lemma findScopeGo_eq_find? (l : List (Node × Option Node)) :
    findScopeGo l =
      (l.find? fun np => isScopeAnchor np.1 np.2).map Prod.fst := by
  induction l with
  | nil => rfl
  | cons np rest ih =>
    obtain ⟨n, p⟩ := np
    show (if isScopeAnchor n p then some n else findScopeGo rest) = _
    cases h : isScopeAnchor n p with
    | true =>
      rw [List.find?_cons_of_pos rest (by simpa using h)]
      simp
    | false =>
      rw [List.find?_cons_of_neg rest (by simp [h])]
      simpa using ih

/-- C7: `findScopePath` returns the nearest ancestor matching the fixed
anchor set `isScopeAnchor` (expression statement, variable declaration not
directly inside an export declaration, return, class declaration, if
statement whose parent is not an if statement, while, switch, export
declaration, for, throw), and `none`/`undefined` when no ancestor matches.
The chain `pairWithParents ancestors.reverse` lists the ancestors nearest
first, each with its own parent; `pre` are the even-nearer ancestors, all
failing the predicate. -/
theorem findScopePath_characterization (ancestors : List Node) :
    (findScopePath ancestors = none ↔
      ∀ np ∈ pairWithParents ancestors.reverse,
        isScopeAnchor np.1 np.2 = false) ∧
    (∀ s, findScopePath ancestors = some s ↔
      ∃ p pre post,
        pairWithParents ancestors.reverse = pre ++ (s, p) :: post ∧
        isScopeAnchor s p = true ∧
        ∀ np ∈ pre, isScopeAnchor np.1 np.2 = false) := by
  constructor
  · rw [findScopePath, findScopeGo_eq_find?, Option.map_eq_none',
      List.find?_eq_none]
    simp
  · intro s
    rw [findScopePath, findScopeGo_eq_find?, Option.map_eq_some']
    constructor
    · rintro ⟨⟨s', par⟩, hfind, rfl⟩
      obtain ⟨hp, pre, post, heq, hall⟩ := List.find?_eq_some.mp hfind
      exact ⟨par, pre, post, heq, hp,
        fun np hnp => by simpa using hall np hnp⟩
    · rintro ⟨par, pre, post, heq, hanch, hall⟩
      exact ⟨(s, par),
        List.find?_eq_some.mpr
          ⟨hanch, pre, post, heq, fun a ha => by simpa using hall a ha⟩,
        rfl⟩

/-- Witness for C7: in the chain `Program → ExpressionStatement` (root
first), the nearest anchor is the expression statement. -/
theorem findScopePath_characterization_witness :
    findScopePath
      [.program ⟨0, none⟩ [], .exprStmt ⟨1, none⟩ (.lit ⟨2, none⟩ "1")] =
      some (.exprStmt ⟨1, none⟩ (.lit ⟨2, none⟩ "1")) :=
  ((findScopePath_characterization _).2 _).mpr
    ⟨some (.program ⟨0, none⟩ []), [], [(.program ⟨0, none⟩ [], none)],
      rfl, rfl, by simp⟩

/-! ## C2 / C5 — the replacement sites -/

/-- Membership in `identifiersToReplace`, with the guards of the source
spelled out (the `isFunctionDeclaration(parent)` guard on the ancestor
entry is statically false and drops out). -/
lemma mem_identifiersToReplace (x : InlinableIdentifier)
    (r : IdentifierToReplace) :
    r ∈ x.identifiersToReplace ↔
      ∃ node anc parent,
        (node, anc) ∈ visits x.scope ∧
        isSelectableNode node = true ∧
        areEqual x.id node = true ∧
        isShadowIn x.id anc = false ∧
        (Selection.fromAST (locD node)).isInsideNode x.id = false ∧
        anc.getLast? = some parent ∧
        usedAsObjectPropertyKey parent.node node = false ∧
        usedAsMemberExpressionProperty parent.node node = false ∧
        r = replacementFor parent.node node := by
  rw [InlinableIdentifier.identifiersToReplace, List.mem_filterMap]
  constructor
  · rintro ⟨⟨node, anc⟩, hv, hf⟩
    simp only at hf
    by_cases h1 : isSelectableNode node
    swap
    · rw [if_pos h1] at hf
      exact absurd hf (by simp)
    rw [if_neg (by simpa using h1)] at hf
    by_cases h2 : areEqual x.id node
    swap
    · rw [if_pos h2] at hf
      exact absurd hf (by simp)
    rw [if_neg (by simpa using h2)] at hf
    by_cases h3 : isShadowIn x.id anc
    · rw [if_pos (by simpa using h3)] at hf
      exact absurd hf (by simp)
    rw [if_neg (by simpa using h3)] at hf
    by_cases h4 : (Selection.fromAST (locD node)).isInsideNode x.id
    · rw [if_pos (by simpa using h4)] at hf
      exact absurd hf (by simp)
    rw [if_neg (by simpa using h4)] at hf
    cases hgl : anc.getLast? with
    | none => rw [hgl] at hf; exact absurd hf (by simp)
    | some parent =>
      rw [hgl] at hf
      replace hf :
          (if InlinableIdentifier.entryGuard parent = true then
              (none : Option IdentifierToReplace)
            else if usedAsObjectPropertyKey parent.node node = true then none
            else if usedAsMemberExpressionProperty parent.node node = true then
              none
            else some (replacementFor parent.node node)) = some r := hf
      rw [if_neg (by simp [InlinableIdentifier.entryGuard])] at hf
      by_cases h5 : usedAsObjectPropertyKey parent.node node
      · rw [if_pos (by simpa using h5)] at hf
        exact absurd hf (by simp)
      rw [if_neg (by simpa using h5)] at hf
      by_cases h6 : usedAsMemberExpressionProperty parent.node node
      · rw [if_pos (by simpa using h6)] at hf
        exact absurd hf (by simp)
      rw [if_neg (by simpa using h6)] at hf
      exact ⟨node, anc, parent, hv, by simpa using h1, by simpa using h2,
        by simpa using h3, by simpa using h4, hgl, by simpa using h5,
        by simpa using h6, (Option.some.injEq _ _).mp hf.symm⟩
  · rintro ⟨node, anc, parent, hv, h1, h2, h3, h4, hgl, h5, h6, hr⟩
    refine ⟨(node, anc), hv, ?_⟩
    simp [h1, h2, h3, h4, hgl, h5, h6, InlinableIdentifier.entryGuard, hr]

/-- C2: with well-formed source locations — every occurrence equal to the
declared identifier has a range (`hsel`), and such an occurrence's range
sits inside the declared identifier's range exactly when it is that very
node (`hloc`) — the replacement set contains exactly the occurrences in
the declaring scope that are structurally equal to the declared
identifier, are not the declaration site itself, are not shadowed, are
not an object-property key and are not a member-expression property. -/
theorem identifiersToReplace_exactness (x : InlinableIdentifier)
    (hsel : ∀ v ∈ visits x.scope, areEqual x.id v.1 = true →
      isSelectableNode v.1 = true)
    (hloc : ∀ v ∈ visits x.scope, areEqual x.id v.1 = true →
      ((Selection.fromAST (locD v.1)).isInsideNode x.id = true ↔
        v.1.nid = x.id.nid)) :
    ∀ r, r ∈ x.identifiersToReplace ↔
      ∃ node anc parent,
        (node, anc) ∈ visits x.scope ∧
        anc.getLast? = some parent ∧
        areEqual x.id node = true ∧
        node.nid ≠ x.id.nid ∧
        isShadowIn x.id anc = false ∧
        usedAsObjectPropertyKey parent.node node = false ∧
        usedAsMemberExpressionProperty parent.node node = false ∧
        r = replacementFor parent.node node := by
  intro r
  rw [mem_identifiersToReplace]
  constructor
  · rintro ⟨node, anc, parent, hv, h1, h2, h3, h4, hgl, h5, h6, hr⟩
    refine ⟨node, anc, parent, hv, hgl, h2, ?_, h3, h5, h6, hr⟩
    intro hnid
    have hins := (hloc (node, anc) hv h2).mpr hnid
    rw [h4] at hins
    exact Bool.false_ne_true hins
  · rintro ⟨node, anc, parent, hv, hgl, h2, hnid, h3, h5, h6, hr⟩
    refine ⟨node, anc, parent, hv, hsel (node, anc) hv h2, h2, h3, ?_,
      hgl, h5, h6, hr⟩
    cases hin : (Selection.fromAST (locD node)).isInsideNode x.id with
    | false => rfl
    | true => exact absurd ((hloc (node, anc) hv h2).mp hin) hnid

/-- Witness for C2: in the fixture, the use of `foo` on line 1 is a
replacement site. -/
theorem identifiersToReplace_exactness_witness :
    ∃ node anc parent,
      (node, anc) ∈ visits singleProg ∧
      anc.getLast? = some parent ∧
      areEqual singleFooId node = true ∧
      node.nid ≠ singleFooId.nid ∧
      isShadowIn singleFooId anc = false ∧
      usedAsObjectPropertyKey parent.node node = false ∧
      usedAsMemberExpressionProperty parent.node node = false ∧
      (⟨mkLoc 1 0 1 3, false, none⟩ : IdentifierToReplace) =
        replacementFor parent.node node :=
  (identifiersToReplace_exactness
      ⟨singleFooId, singleProg, mkLoc 0 12 0 17⟩ (by decide) (by decide)
      ⟨mkLoc 1 0 1 3, false, none⟩).mp (by decide)

/-- The ternary of the `readThenWrite` callback, evaluated on the data
`identifiersToReplace` recorded for a site. -/
lemma replacementCode_replacementFor (pn node : Node) (inlined : String) :
    replacementCode (replacementFor pn node) inlined =
      (if isUnaryExpression pn = true then "(" ++ inlined ++ ")"
       else if (isObjectProperty pn && shorthandFlag pn &&
           isIdentifier node) = true then
         identName node ++ ": " ++ inlined
       else inlined) := by
  rw [replacementCode, replacementFor]
  by_cases h : isUnaryExpression pn = true <;>
    by_cases h2 : (isObjectProperty pn && shorthandFlag pn &&
      isIdentifier node) = true <;>
    simp [h, h2]

/-- C5: every replacement site's text is the parenthesized initializer
`(<init>)` when the site's immediate parent is a unary expression, the
re-expanded `<name>: <init>` when the site sits under a shorthand object
property (its key position was excluded earlier, so the site is the
property's value), and the initializer's text verbatim otherwise. -/
theorem replacementText_rules (x : InlinableIdentifier) :
    ∀ r ∈ x.identifiersToReplace,
      ∃ node anc parent,
        (node, anc) ∈ visits x.scope ∧
        anc.getLast? = some parent ∧
        areEqual x.id node = true ∧
        usedAsObjectPropertyKey parent.node node = false ∧
        r = replacementFor parent.node node ∧
        ∀ inlinedCode,
          replacementCode r inlinedCode =
            (if isUnaryExpression parent.node = true then
              "(" ++ inlinedCode ++ ")"
             else if (isObjectProperty parent.node &&
                 shorthandFlag parent.node && isIdentifier node) = true then
               identName node ++ ": " ++ inlinedCode
             else inlinedCode) := by
  intro r hr
  obtain ⟨node, anc, parent, hv, h1, h2, h3, h4, hgl, h5, h6, hrr⟩ :=
    (mem_identifiersToReplace x r).mp hr
  exact ⟨node, anc, parent, hv, hgl, h2, h5, hrr, fun inl => by
    rw [hrr]; exact replacementCode_replacementFor parent.node node inl⟩

/-- Witness for C5: the unary-use site of the fixture gets the
parenthesized replacement. -/
theorem replacementText_rules_witness :
    ∃ node anc parent,
      (node, anc) ∈ visits mixedProg ∧
      anc.getLast? = some parent ∧
      areEqual mixedFooId node = true ∧
      usedAsObjectPropertyKey parent.node node = false ∧
      (⟨mkLoc 1 1 1 4, true, none⟩ : IdentifierToReplace) =
        replacementFor parent.node node ∧
      ∀ inlinedCode,
        replacementCode ⟨mkLoc 1 1 1 4, true, none⟩ inlinedCode =
          (if isUnaryExpression parent.node = true then
            "(" ++ inlinedCode ++ ")"
           else if (isObjectProperty parent.node &&
               shorthandFlag parent.node && isIdentifier node) = true then
             identName node ++ ": " ++ inlinedCode
           else inlinedCode) :=
  replacementText_rules ⟨mixedFooId, mixedProg, mkLoc 0 12 0 13⟩
    ⟨mkLoc 1 1 1 4, true, none⟩ (by decide)

/-! ## C1 — inline-variable validation and error reporting -/

/-- `isRedeclared` detects exactly a reassignment: some assignment
expression in the defining scope whose left side equals the identifier. -/
lemma isRedeclared_iff (x : InlinableIdentifier) :
    x.isRedeclared = true ↔
      ∃ v ∈ visits x.scope,
        (assignmentLeft v.1).elim false
          (fun l => areEqual x.id l) = true := by
  rw [InlinableIdentifier.isRedeclared, List.any_eq_true]
  refine exists_congr fun v => and_congr_right fun _ => ?_
  obtain ⟨n, anc⟩ := v
  cases n <;> exact Iff.rfl

/-- `isExported` detects exactly that the identifier's name is among the
scope's exported names. -/
lemma isExported_iff (x : InlinableIdentifier) :
    x.isExported = true ↔
      identName x.id ∈ findExportedIdNames x.scope := by
  rw [InlinableIdentifier.isExported]
  exact List.elem_iff

/-- C1: `inlineVariable`'s validation chain — no inlinable declaration
reports `DidNotFoundInlinableCode`; otherwise a reassignment (some
assignment expression's left side in the defining scope equals the
identifier) reports `CantInlineRedeclaredVariables`; otherwise an exported
name reports `CantInlineExportedVariables`; otherwise zero replacement
sites report `DidNotFoundInlinableCodeIdentifiers`; and every `showError`
outcome emits zero edits (`readThenWrite` is never invoked). -/
theorem inlineVariable_validation (root : Node) (sel : Selection) :
    (findInlinableCode root sel = none →
      inlineVariable root sel = .showError .DidNotFoundInlinableCode) ∧
    (∀ ic, findInlinableCode root sel = some ic →
      ((∃ v ∈ visits ic.child.scope,
          (assignmentLeft v.1).elim false
            (fun l => areEqual ic.child.id l) = true) →
        inlineVariable root sel =
          .showError .CantInlineRedeclaredVariables) ∧
      (¬ (∃ v ∈ visits ic.child.scope,
          (assignmentLeft v.1).elim false
            (fun l => areEqual ic.child.id l) = true) →
        identName ic.child.id ∈ findExportedIdNames ic.child.scope →
        inlineVariable root sel =
          .showError .CantInlineExportedVariables) ∧
      (¬ (∃ v ∈ visits ic.child.scope,
          (assignmentLeft v.1).elim false
            (fun l => areEqual ic.child.id l) = true) →
        identName ic.child.id ∉ findExportedIdNames ic.child.scope →
        ic.identifiersToReplace = [] →
        inlineVariable root sel =
          .showError .DidNotFoundInlinableCodeIdentifiers)) ∧
    (∀ r inlined, inlineVariable root sel = .showError r →
      (inlineVariable root sel).emittedEdits inlined = []) := by
  refine ⟨fun h => by rw [inlineVariable, h], fun ic hic => ?_,
    fun r inlined h => by rw [h]; rfl⟩
  refine ⟨fun hex => ?_, fun hnex hexp => ?_, fun hnex hnexp hids => ?_⟩
  · have h1 : ic.isRedeclared = true := (isRedeclared_iff ic.child).mpr hex
    simp [inlineVariable, hic, h1]
  · have h1 : ic.isRedeclared = false := by
      cases hh : ic.isRedeclared with
      | false => rfl
      | true => exact absurd ((isRedeclared_iff ic.child).mp hh) hnex
    have h2 : ic.isExported = true := (isExported_iff ic.child).mpr hexp
    simp [inlineVariable, hic, h1, h2]
  · have h1 : ic.isRedeclared = false := by
      cases hh : ic.isRedeclared with
      | false => rfl
      | true => exact absurd ((isRedeclared_iff ic.child).mp hh) hnex
    have h2 : ic.isExported = false := by
      cases hh : ic.isExported with
      | false => rfl
      | true => exact absurd ((isExported_iff ic.child).mp hh) hnexp
    have hids' : ic.child.identifiersToReplace = [] := hids
    simp [inlineVariable, hic, h1, h2, InlinableCode.identifiersToReplace,
      hids']

/-- Witness for C1, all three guarded failure modes at concrete inputs,
plus the absence of edits. -/
theorem inlineVariable_validation_witness :
    inlineVariable redeclProg declCursor =
        .showError .CantInlineRedeclaredVariables ∧
      inlineVariable exportProg exportCursor =
        .showError .CantInlineExportedVariables ∧
      inlineVariable noUseProg declCursor =
        .showError .DidNotFoundInlinableCodeIdentifiers ∧
      (inlineVariable redeclProg declCursor).emittedEdits "1" = [] := by
  have h1 :=
    ((inlineVariable_validation redeclProg declCursor).2.1 redeclIC rfl).1
      (List.any_eq_true.mp (by decide))
  have h2 :=
    ((inlineVariable_validation exportProg exportCursor).2.1 exportIC
        rfl).2.1 (by decide) (by decide)
  have h3 :=
    ((inlineVariable_validation noUseProg declCursor).2.1 noUseIC
        rfl).2.2 (by decide) (by decide) (by decide)
  exact ⟨h1, h2, h3,
    (inlineVariable_validation redeclProg declCursor).2.2 _ "1" h1⟩

/-! ## C4 — the deletion edit -/

/-- C4: the deletion edit's range. For a Leaf it is the declarator range
(initializer extended back to the identifier) extended to the start of its
own line through the start of the next line. For a Composite built by the
multi-declarator branch, the selected declarator's range is merged with
the next declarator when one exists (the range's end is extended forward
to it), otherwise with the previous one (the range's start is extended
backward to it) — so inlining the last declarator merges with the
previous one and inlining any earlier declarator merges with the next.
The deletion edit itself is the final edit `readThenWrite` builds. -/
theorem codeToRemoveSelection_rules :
    (∀ x : InlinableIdentifier,
      (InlinableCode.leaf x).codeToRemoveSelection =
        ⟨⟨(locD x.id).start.line, 0⟩, ⟨x.valueLoc.stop.line + 1, 0⟩⟩) ∧
    (∀ scope sel declarations index m idN init nextD,
      declarations[index]? = some (.dtor m idN (some init)) →
      sel.isInsideNode (.dtor m idN (some init)) = true →
      isSelectableIdentifier idN = true →
      isSelectableNode init = true →
      declarations[index + 1]? = some nextD →
      multiDeclaratorMatch scope sel declarations index =
        some (.composite ⟨idN, scope, locD init⟩
          ⟨true, locD (.dtor m idN (some init)), locD nextD⟩) ∧
      (InlinableCode.composite ⟨idN, scope, locD init⟩
          ⟨true, locD (.dtor m idN (some init)),
            locD nextD⟩).codeToRemoveSelection =
        ⟨(locD (.dtor m idN (some init))).start, (locD nextD).stop⟩) ∧
    (∀ scope sel declarations index m idN init prevD,
      declarations[index]? = some (.dtor m idN (some init)) →
      sel.isInsideNode (.dtor m idN (some init)) = true →
      isSelectableIdentifier idN = true →
      isSelectableNode init = true →
      index ≠ 0 →
      declarations[index + 1]? = none →
      declarations[index - 1]? = some prevD →
      multiDeclaratorMatch scope sel declarations index =
        some (.composite ⟨idN, scope, locD init⟩
          ⟨false, locD (.dtor m idN (some init)), locD prevD⟩) ∧
      (InlinableCode.composite ⟨idN, scope, locD init⟩
          ⟨false, locD (.dtor m idN (some init)),
            locD prevD⟩).codeToRemoveSelection =
        ⟨(locD prevD).start,
          (locD (.dtor m idN (some init))).stop⟩) ∧
    (∀ inlined ids rm,
      (buildInlineEdits inlined ids rm).getLast? = some ⟨"", rm⟩) := by
  refine ⟨fun x => rfl, ?_, ?_, fun inlined ids rm => ?_⟩
  · intro scope sel declarations index m idN init nextD hidx hsel hid hinit
      hnext
    refine ⟨?_, rfl⟩
    rw [multiDeclaratorMatch, hidx]
    simp [hsel, hnext, hid, hinit]
  · intro scope sel declarations index m idN init prevD hidx hsel hid hinit
      hi0 hnext hprev
    refine ⟨?_, rfl⟩
    rw [multiDeclaratorMatch, hidx]
    have hbeq : (index == 0) = false := by simpa using hi0
    simp [hsel, hnext, hprev, hid, hinit, hbeq]
  · exact List.getLast?_concat _

/-- Witness for C4: on the nested fixture, inlining `c` (which has a next
sibling `d`) merges forward, and inlining `b` (the last declarator of the
outer declaration) merges backward with `a`. -/
theorem codeToRemoveSelection_rules_witness :
    multiDeclaratorMatch nestedBlock nestedSel [nestedDtorC, nestedDtorD]
        0 =
      some (.composite ⟨nestedIdC, nestedBlock, mkLoc 1 12 1 13⟩
        ⟨true, mkLoc 1 8 1 13, mkLoc 1 15 1 20⟩) ∧
    multiDeclaratorMatch nestedProg nestedSel [nestedDtorA, nestedDtorB]
        1 =
      some (.composite ⟨nestedIdB, nestedProg, mkLoc 0 17 2 1⟩
        ⟨false, mkLoc 0 13 2 1, mkLoc 0 6 0 11⟩) := by
  constructor
  · exact (codeToRemoveSelection_rules.2.1 nestedBlock nestedSel
      [nestedDtorC, nestedDtorD] 0 ⟨10, some (mkLoc 1 8 1 13)⟩ nestedIdC
      nestedLit2 nestedDtorD rfl (by decide) (by decide) (by decide)
      rfl).1
  · exact (codeToRemoveSelection_rules.2.2.1 nestedProg nestedSel
      [nestedDtorA, nestedDtorB] 1 ⟨5, some (mkLoc 0 13 2 1)⟩ nestedIdB
      nestedArrow nestedDtorA rfl (by decide) (by decide) (by decide)
      (by decide) rfl rfl).1

/-! ## C6 — the destructure prompt -/

/-- C6 (spec-modelled, see `askUserChoiceOptions`): `extractVariable`
calls `askUserChoice` with exactly two options, Destructure then Preserve,
labels showing the literal resulting code; it never asks when the chain
contains a computed segment, nor when the extracted node is not a member
chain (e.g. a literal). -/
theorem askUserChoice_rules :
    (∀ t, askUserChoiceOptions (.notAChain t) = none) ∧
    (∀ base segments, segments.any (fun s => s.2) = true →
      askUserChoiceOptions (.memberChain base segments) = none) ∧
    (∀ base segments, segments ≠ [] →
      segments.any (fun s => s.2) = false →
      askUserChoiceOptions (.memberChain base segments) =
        some
          [⟨"Destructure => `const \x7b " ++
              ((segments.getLast?.map fun s => s.1).getD "") ++
              " \x7d = " ++ chainText base segments.dropLast ++ "`",
            .Destructure⟩,
           ⟨"Preserve => `const " ++
              ((segments.getLast?.map fun s => s.1).getD "") ++ " = " ++
              chainText base segments ++ "`", .Preserve⟩]) := by
  refine ⟨fun t => rfl, fun base segs h => ?_, fun base segs hne h => ?_⟩
  · rw [askUserChoiceOptions]
    simp [h]
  · rw [askUserChoiceOptions]
    have hne' : segs.isEmpty = false := by
      cases segs with
      | nil => exact absurd rfl hne
      | cons a l => rfl
    simp [hne', h]

/-- Witness for C6: the `foo.bar.baz` chain of the test file, with the
test's literal labels, and the no-prompt cases of the test file (the
computed chain `foo.bar.children[0].selection` and the string literal). -/
theorem askUserChoice_rules_witness :
    askUserChoiceOptions
        (.memberChain "foo" [("bar", false), ("baz", false)]) =
      some
        [⟨"Destructure => `const \x7b baz \x7d = foo.bar`", .Destructure⟩,
         ⟨"Preserve => `const baz = foo.bar.baz`", .Preserve⟩] ∧
    askUserChoiceOptions
        (.memberChain "foo"
          [("bar", false), ("children", false), ("0", true),
            ("selection", false)]) = none ∧
    askUserChoiceOptions (.notAChain "\"hello\"") = none := by
  refine ⟨?_, ?_, askUserChoice_rules.1 "\"hello\""⟩
  · exact (askUserChoice_rules.2.2 "foo" [("bar", false), ("baz", false)]
      (by decide) (by decide)).trans rfl
  · exact askUserChoice_rules.2.1 "foo"
      [("bar", false), ("children", false), ("0", true),
        ("selection", false)] (by decide)

/-! ## C8 — the named-export range patch -/

/-- C8: a variable declaration without a range of its own, sitting inside
a named export, borrows the export declaration's range before matching:
for any such declaration, any selection inside the export's range finds
the declaration (in the source this is the in-place `node.loc =
parent.loc` patch; the engine never reads the patched range afterwards,
so the per-visit view is observationally equal). -/
theorem exported_declaration_inherits_range
    (nv nd ni nl ne np : Nat) (dl il ll eLoc pl : Loc) (nm txt : String)
    (sel : Selection) (h : sel.isInsideLoc eLoc = true) :
    findInlinableCode
      (.program ⟨np, some pl⟩
        [.exportNamed ⟨ne, some eLoc⟩
          (some (.varDecl ⟨nv, none⟩
            [.dtor ⟨nd, some dl⟩ (.ident ⟨ni, some il⟩ nm)
              (some (.lit ⟨nl, some ll⟩ txt))]))]) sel =
      some (.leaf ⟨.ident ⟨ni, some il⟩ nm,
        .exportNamed ⟨ne, some eLoc⟩
          (some (.varDecl ⟨nv, none⟩
            [.dtor ⟨nd, some dl⟩ (.ident ⟨ni, some il⟩ nm)
              (some (.lit ⟨nl, some ll⟩ txt))])), ll⟩) := by
  simp [findInlinableCode, visits, visitsAux, visitsList, visitsOpt,
    inlinableMatch, singleResultFor, isExportNamedDeclaration,
    isSelectableNode, isVariableDeclaration, Node.withLoc, Node.loc,
    Node.meta, Selection.isInsideNode, declarationsOf,
    isSelectableVariableDeclarator, isVariableDeclarator,
    isSelectableIdentifier, isIdentifier, locD, h]

/-- Witness for C8 at a concrete exported, range-less declaration. -/
theorem exported_declaration_inherits_range_witness :
    findInlinableCode
      (.program ⟨0, some (mkLoc 0 0 0 21)⟩
        [.exportNamed ⟨5, some (mkLoc 0 0 0 21)⟩
          (some (.varDecl ⟨1, none⟩
            [.dtor ⟨2, some (mkLoc 0 13 0 20)⟩
              (.ident ⟨3, some (mkLoc 0 13 0 16)⟩ "foo")
              (some (.lit ⟨4, some (mkLoc 0 19 0 20)⟩ "1"))]))])
      ⟨⟨0, 14⟩, ⟨0, 14⟩⟩ =
      some (.leaf ⟨.ident ⟨3, some (mkLoc 0 13 0 16)⟩ "foo",
        .exportNamed ⟨5, some (mkLoc 0 0 0 21)⟩
          (some (.varDecl ⟨1, none⟩
            [.dtor ⟨2, some (mkLoc 0 13 0 20)⟩
              (.ident ⟨3, some (mkLoc 0 13 0 16)⟩ "foo")
              (some (.lit ⟨4, some (mkLoc 0 19 0 20)⟩ "1"))])),
        mkLoc 0 19 0 20⟩) :=
  exported_declaration_inherits_range 1 2 3 4 5 0 (mkLoc 0 13 0 20)
    (mkLoc 0 13 0 16) (mkLoc 0 19 0 20) (mkLoc 0 0 0 21)
    (mkLoc 0 0 0 21) "foo" "1" ⟨⟨0, 14⟩, ⟨0, 14⟩⟩ (by decide)

/-! ## C10 — the action provider -/

lemma mapSet_inv {m : List (String × RefactoringConfig)}
    {v : RefactoringConfig} (h : MapInv m) :
    MapInv (mapSet m v.key v) := by
  obtain ⟨hnd, hkey⟩ := h
  rw [mapSet]
  split
  · refine ⟨?_, ?_⟩
    · have hmm :
          ((m.map fun kv =>
            if kv.1 == v.key then (v.key, v) else kv).map Prod.fst) =
            m.map Prod.fst := by
        rw [List.map_map]
        refine List.map_congr_left fun kv _ => ?_
        by_cases hkv : (kv.1 == v.key) = true
        · simp only [Function.comp_apply, hkv, if_true]
          exact (eq_of_beq hkv).symm
        · simp only [Function.comp_apply]
          rw [if_neg hkv]
      rw [hmm]
      exact hnd
    · intro kv hkv
      obtain ⟨kv', hkv', hkveq⟩ := List.mem_map.mp hkv
      by_cases hb : (kv'.1 == v.key) = true
      · rw [if_pos hb] at hkveq
        rw [← hkveq]
      · rw [if_neg hb] at hkveq
        rw [← hkveq]
        exact hkey kv' hkv'
  · rename_i hany
    refine ⟨?_, ?_⟩
    · rw [List.map_append, List.nodup_append]
      refine ⟨hnd, by simp, ?_⟩
      intro a ha hb
      simp only [List.map_cons, List.map_nil, List.mem_singleton] at hb
      subst hb
      obtain ⟨kv, hkv, hkveq⟩ := List.mem_map.mp ha
      exact hany (List.any_eq_true.mpr ⟨kv, hkv, by simp [hkveq]⟩)
    · intro kv hkv
      rcases List.mem_append.mp hkv with h' | h'
      · exact hkey kv h'
      · simp only [List.mem_singleton] at h'
        subst h'
        rfl

lemma foldl_preserve {α β : Type _} {P : β → Prop} {f : β → α → β}
    (hf : ∀ b a, P b → P (f b a)) :
    ∀ (l : List α) (init : β), P init → P (l.foldl f init)
  | [], _, h => h
  | a :: l, init, h => foldl_preserve hf l (f init a) (hf init a h)

/-- The keys of the applicable-refactorings list are distinct. -/
lemma findApplicableRefactorings_keys_nodup
    (refactorings : List RefactoringConfig) (quickFixKeys : List String)
    (ast : Node) (sel : Selection) :
    ((findApplicableRefactorings refactorings quickFixKeys ast sel).map
      (fun r => r.key)).Nodup := by
  rw [findApplicableRefactorings]
  have hinv :
      MapInv ((visits ast).foldl
        (fun m v =>
          (refactorings.filter fun r => quickFixKeys.contains r.key).foldl
            (fun m r =>
              if r.matchesAt sel v.1 then mapSet m r.key r else m) m)
        []) := by
    refine foldl_preserve (fun m v hm => ?_) (visits ast) [] ⟨by simp, by simp⟩
    refine foldl_preserve (fun m' r hm' => ?_) _ m hm
    split
    · exact mapSet_inv hm'
    · exact hm'
  obtain ⟨hnd, hkey⟩ := hinv
  rw [List.map_map]
  rw [List.map_congr_left (g := Prod.fst)
    (fun kv hkv => by
      simp only [Function.comp_apply]
      exact (hkey kv hkv).symm)]
  exact hnd

/-- C10: `provideCodeActions` returns the empty action list when the
document path contains an ignored-folder segment, when no editor can be
created, and when parsing throws (modelled by `parse` returning `none` —
the `catch` swallows the exception, so none escapes); and the action list
never holds two actions for the same refactoring command key. -/
theorem provideCodeActions_safety (refactorings : List RefactoringConfig)
    (ignoredFolders quickFixKeys : List String) (filePath : String)
    (editor : Option EditorState) (parse : String → Option Node) :
    (isNavigatingAnIgnoredFile ignoredFolders filePath = true →
      provideCodeActions refactorings ignoredFolders quickFixKeys filePath
        editor parse = []) ∧
    (editor = none →
      provideCodeActions refactorings ignoredFolders quickFixKeys filePath
        editor parse = []) ∧
    (∀ ed, editor = some ed → parse ed.code = none →
      provideCodeActions refactorings ignoredFolders quickFixKeys filePath
        editor parse = []) ∧
    (∀ ast sel,
      ((findApplicableRefactorings refactorings quickFixKeys ast sel).map
        (fun r => r.key)).Nodup) := by
  refine ⟨fun h => by unfold provideCodeActions; rw [if_pos h],
    fun h => by unfold provideCodeActions; rw [h]; split <;> rfl,
    fun ed hed hparse => by
      unfold provideCodeActions
      rw [hed]
      split
      · rfl
      · show (match parse ed.code with
          | none => ([] : List CodeAction)
          | some ast =>
            (findApplicableRefactorings refactorings quickFixKeys ast
                ed.selection).map buildCodeActionFor) = []
        rw [hparse],
    fun ast sel =>
      findApplicableRefactorings_keys_nodup refactorings quickFixKeys ast
        sel⟩

/-- Witness for C10: an ignored path yields no action, a missing editor
yields no action, a parse failure yields no action, and the key list of
the applicable refactorings is duplicate-free on a concrete tree where
the refactoring matches at every node. -/
theorem provideCodeActions_safety_witness :
    provideCodeActions [alwaysRefactoring] ["node_modules"] ["flipIfElse"]
        "/p/node_modules/f.ts" (some ⟨"", ⟨⟨0, 0⟩, ⟨0, 0⟩⟩⟩)
        (fun _ => some singleProg) = [] ∧
    provideCodeActions [alwaysRefactoring] ["node_modules"] ["flipIfElse"]
        "/p/src/f.ts" none (fun _ => some singleProg) = [] ∧
    provideCodeActions [alwaysRefactoring] ["node_modules"] ["flipIfElse"]
        "/p/src/f.ts" (some ⟨"", ⟨⟨0, 0⟩, ⟨0, 0⟩⟩⟩) (fun _ => none) = [] ∧
    ((findApplicableRefactorings [alwaysRefactoring] ["flipIfElse"]
        singleProg ⟨⟨0, 0⟩, ⟨0, 0⟩⟩).map (fun r => r.key)).Nodup := by
  refine ⟨(provideCodeActions_safety _ _ _ _ _ _).1 (by decide),
    (provideCodeActions_safety _ _ _ _ _ _).2.1 rfl,
    (provideCodeActions_safety _ _ _ _ _ _).2.2.1 _ rfl rfl,
    (provideCodeActions_safety [alwaysRefactoring] ["node_modules"]
      ["flipIfElse"] "/p/src/f.ts" none (fun _ => none)).2.2.2 singleProg
      ⟨⟨0, 0⟩, ⟨0, 0⟩⟩⟩

end Refactorix
